import Mathlib

/-!
Verification of the `mvc` package (mattds/mvc, `mvc.go`).

The development shallowly embeds the template-registry builder
(`SetupViews` / `parseViewDirectory`), the render resolver (`render`) and
the query-parameter accessors (`GetString`, `GetInt64`) of `mvc.go`.

Modelling conventions:
* Filesystem paths are componentized: `path.Join(dirname, name)` on clean
  names is modelled as `dirname ++ [name]` over `List String`.  The root
  directory argument of `SetupViews` stays a `String` and becomes the
  first path component, matching the keys `fmt.Sprintf("%s/%s/%s", ...)`
  builds in `render`.
* The filesystem seen by the walk is a finite tree `FsTree`; each
  directory carries two flags modelling whether `os.Open` and
  `f.Readdir(-1)` succeed on it, the names of its non-directory entries,
  and its subdirectories.
* The Go map `templates` is modelled as a function
  `List String → Option ViewMap`; a compiled `*template.Template` set is
  modelled by the name-to-file table (`ViewMap`) it was compiled from,
  since `ParseFiles` names each template after the base name of its file.
* `path.Match("*.html", name)` never returns an error for this fixed,
  well-formed pattern, so the error branch after `path.Match` in the Go
  code is unreachable and the match is modelled as the boolean
  `matchHtml`: the name ends in ".html" and contains no separator.
-/

/-- Table from template file name to the (componentized) full path of the
file that defines it; models both the `views` map of `parseViewDirectory`
and the compiled template set produced from it. -/
abbrev ViewMap := List (String × List String)

/-- The global `templates` Go map, keyed by componentized directory path. -/
abbrev Registry := List String → Option ViewMap

/-- URL query values: `c.Request.URL.Query()` as a total function from
parameter name to associated value list (absent parameters map to `[]`). -/
abbrev Query := String → List String

/-- Model of `path.Match("*.html", f.Name())`: `*` matches any run of
non-separator characters, so a name matches exactly when it ends in the
literal ".html" and contains no `/`. -/
def matchHtml (s : String) : Bool :=
  (s.data.reverse.take 5 == ['l', 'm', 't', 'h', '.']) && !(s.data.contains '/')

/-- Go map assignment `views[k] = v`: replace the binding of `k` if
present, otherwise add it. -/
def vmInsert (vm : ViewMap) (k : String) (v : List String) : ViewMap :=
  match vm with
  | [] => [(k, v)]
  | (k', v') :: rest => if k' = k then (k, v) :: rest else (k', v') :: vmInsert rest k v

/-- Go map read `views[k]`. -/
def vmLookup (n : String) : ViewMap → Option (List String)
  | [] => none
  | (k, v) :: rest => if k = n then some v else vmLookup n rest

/-- First loop of `parseViewDirectory`: for each listed entry `f` that is
not a directory and matches `*.html`, set `views[f.Name()] =
path.Join(dirname, f.Name())`. -/
def addHtmlFiles (dirname : List String) : List String → ViewMap → ViewMap
  | [], vm => vm
  | f :: rest, vm =>
      addHtmlFiles dirname rest (if matchHtml f then vmInsert vm f (dirname ++ [f]) else vm)

mutual
/-- A directory of the modelled filesystem: whether `os.Open` succeeds on
it, whether `Readdir` succeeds on it, the names of its non-directory
entries, and its subdirectories. -/
inductive FsTree where
  | node (openOk readOk : Bool) (files : List String) (subdirs : FsForest)
/-- The subdirectories of a directory: a list of named `FsTree`s. -/
inductive FsForest where
  | nil
  | cons (name : String) (t : FsTree) (rest : FsForest)
end

/-- Registry with no entries: the zero value of the `templates` map. -/
def emptyReg : Registry := fun _ => none

/-- Go map assignment `templates[dirname] = t`. -/
def regUpdate (reg : Registry) (k : List String) (v : ViewMap) : Registry :=
  fun k' => if k' = k then some v else reg k'

mutual
/-- Model of `parseViewDirectory(dirname, parentViews)` acting on the
registry `reg`: seed a local table from the parent table, fail if opening
or listing the directory fails, record every `*.html` entry (overriding
inherited names), recurse into every subdirectory — discarding, as the Go
code does, the recursive call's error — and finally register the local
table under `dirname` when it is non-empty. -/
def parseViewDirectory (dirname : List String) (parentViews : ViewMap) (reg : Registry) :
    FsTree → Except String Registry
  | .node openOk readOk files subdirs =>
      if openOk = false then .error "open failed"
      else if readOk = false then .error "readdir failed"
      else
        let views := addHtmlFiles dirname files parentViews
        let reg2 := parseSubdirs dirname views reg subdirs
        if views.length > 0 then .ok (regUpdate reg2 dirname views) else .ok reg2

/-- Second loop of `parseViewDirectory`: recurse into each subdirectory.
The Go code ignores the recursive call's return value, so a failing child
leaves the registry as that child found it. -/
def parseSubdirs (dirname : List String) (views : ViewMap) (reg : Registry) :
    FsForest → Registry
  | .nil => reg
  | .cons name sub rest =>
      let reg2 := match parseViewDirectory (dirname ++ [name]) views reg sub with
        | .ok r => r
        | .error _ => reg
      parseSubdirs dirname views reg2 rest
end

/-- Result of one call of `parseViewDirectory`, keeping the registry a
failing call leaves behind.  A call can only fail at `os.Open` or
`Readdir`, both of which precede every registry write in that call, so on
failure the registry is exactly the caller's. -/
def parseStep (dirname : List String) (parentViews : ViewMap) (reg : Registry)
    (t : FsTree) : Registry :=
  match parseViewDirectory dirname parentViews reg t with
  | .ok r => r
  | .error _ => reg

/-- The process-wide state of the package: the `templates` map and the
`viewRootDir` sentinel. -/
structure MvcState where
  templates : Registry
  viewRootDir : String

/-- Initial state: `templates` is the nil map, `viewRootDir` is `""`. -/
def initState : MvcState := ⟨emptyReg, ""⟩

/-- Model of `SetupViews(rootDir)` run against the filesystem tree `fs`
found at `rootDir`: fail if the sentinel is already set; otherwise reset
`templates` to a fresh empty map, set the sentinel, and walk the tree.
Returns the new state and the returned error, if any. -/
def SetupViews (st : MvcState) (rootDir : String) (fs : FsTree) :
    MvcState × Option String :=
  if st.viewRootDir ≠ "" then
    (st, some "Views cannot have more than one root directory.")
  else
    match parseViewDirectory [rootDir] [] emptyReg fs with
    | .ok reg => ({ templates := reg, viewRootDir := rootDir }, none)
    | .error e => ({ templates := emptyReg, viewRootDir := rootDir }, some e)

/-- Outcome of `render`: either `t.ExecuteTemplate(w, "base.html", vm)`
was invoked on the set registered under the recorded key, or
`http.Error(w, msg, http.StatusInternalServerError)` was written and no
template was executed. -/
inductive RenderResult where
  | executed (key : List String) (set : ViewMap)
  | notFound (msg : String)
deriving DecidableEq

/-- Model of `render(w, controllerName, view, vm)`: look up
`root/controller/view`, then `root/controller`, then `root`, and if all
three keys are absent write a 500 whose message names the last attempted
path, which at that point is `viewRootDir`. -/
def render (st : MvcState) (controllerName view : String) : RenderResult :=
  match st.templates [st.viewRootDir, controllerName, view] with
  | some t => .executed [st.viewRootDir, controllerName, view] t
  | none =>
    match st.templates [st.viewRootDir, controllerName] with
    | some t => .executed [st.viewRootDir, controllerName] t
    | none =>
      match st.templates [st.viewRootDir] with
      | some t => .executed [st.viewRootDir] t
      | none =>
          .notFound ("The templates for " ++ st.viewRootDir ++ " were not found.")

/-- Model of `Controller.GetStringSlice`: the values bound to the query
parameter. -/
def GetStringSlice (q : Query) (queryParam : String) : List String :=
  q queryParam

/-- Model of `Controller.GetString`: the first bound value, or the default
when the parameter has no associated value. -/
def GetString (q : Query) (queryParam : String) (d : String) : String :=
  let val := GetStringSlice q queryParam
  if val.length = 0 then d else val.headD d

/-- Numeric value of a decimal digit, `none` for any other character. -/
def digitVal (c : Char) : Option Nat :=
  if '0' ≤ c ∧ c ≤ '9' then some (c.toNat - '0'.toNat) else none

/-- Accumulate the decimal value of a digit string; `none` on the first
non-digit character. -/
def digitsValAux : List Char → Nat → Option Nat
  | [], acc => some acc
  | c :: cs, acc =>
      match digitVal c with
      | none => none
      | some d => digitsValAux cs (acc * 10 + d)

/-- Model of `strconv.ParseInt(s, 10, 64)` as used by `GetInt64`: an
optional single `+`/`-` sign followed by at least one decimal digit, with
the result required to fit in a signed 64-bit integer; `none` stands for
a non-nil error (syntax or range). -/
def parseInt64 (s : String) : Option Int :=
  match s.data with
  | [] => none
  | c :: cs =>
      let neg : Bool := c = '-'
      let ds : List Char := if c = '-' ∨ c = '+' then cs else c :: cs
      match ds with
      | [] => none
      | _ =>
        match digitsValAux ds 0 with
        | none => none
        | some n =>
            if neg then
              if (n : Int) ≤ 2 ^ 63 then some (-(n : Int)) else none
            else
              if (n : Int) < 2 ^ 63 then some (n : Int) else none

/-- Model of `Controller.GetInt64`: read the parameter with default `""`,
return the default on an empty string or a `ParseInt` error, otherwise
the parsed value. -/
def GetInt64 (q : Query) (queryParam : String) (d : Int) : Int :=
  let s := GetString q queryParam ""
  if s = "" then d
  else
    match parseInt64 s with
    | none => d
    | some i => i

/-- Model of `Controller.GetInt`: `GetInt64` narrowed to `int`; the model
keeps the mathematical integer (a 64-bit platform's `int` is 64 bits
wide, making the conversion the identity on in-range values). -/
def GetInt (q : Query) (queryParam : String) (d : Int) : Int :=
  GetInt64 q queryParam d

/-- Whether `os.Open` and `Readdir` both succeed on the root directory of
a tree; by `parse_error_iff_rootErr` these are the only failures
`parseViewDirectory` ever reports. -/
def FsTree.rootOk : FsTree → Bool
  | .node o r _ _ => o && r

/-- Names of the subdirectories of a directory. -/
def forestNames : FsForest → List String
  | .nil => []
  | .cons n _ rest => n :: forestNames rest

/-- Whether a list of names is duplicate-free; on a real filesystem the
entries of one directory always are. -/
def namesNodup : List String → Bool
  | [] => true
  | n :: rest => decide (n ∉ rest) && namesNodup rest

/-- The subdirectory with the given name, if any. -/
def forestFind : FsForest → String → Option FsTree
  | .nil, _ => none
  | .cons m t rest, n => if m = n then some t else forestFind rest n

mutual
/-- Whether every directory of the tree can be opened and listed. -/
def FsTree.allOk : FsTree → Bool
  | .node o r _ subs => o && r && FsForest.allOk subs
/-- Whether every directory of the forest can be opened and listed. -/
def FsForest.allOk : FsForest → Bool
  | .nil => true
  | .cons _ t rest => FsTree.allOk t && FsForest.allOk rest
end

mutual
/-- Well-formedness of the modelled filesystem: within every directory,
sibling subdirectory names are pairwise distinct. -/
def FsTree.wfNames : FsTree → Bool
  | .node _ _ _ subs => namesNodup (forestNames subs) && FsForest.wfNames subs
/-- Well-formedness of a forest: every member tree is well-formed. -/
def FsForest.wfNames : FsForest → Bool
  | .nil => true
  | .cons _ t rest => FsTree.wfNames t && FsForest.wfNames rest
end

/-- Root-to-target chain of a relative path: starting from the directory
`dirname` holding the tree, follow the path's components and collect the
(absolute path, file names) pair of every directory passed through,
target included; `none` if the path names a missing subdirectory. -/
def dirChain : List String → FsTree → List String → Option (List (List String × List String))
  | dirname, .node _ _ files _, [] => some [(dirname, files)]
  | dirname, .node _ _ files subs, n :: rest =>
      match forestFind subs n with
      | none => none
      | some sub =>
          match dirChain (dirname ++ [n]) sub rest with
          | none => none
          | some ch => some ((dirname, files) :: ch)

/-- The name table accumulated along a chain of directories: each
directory's `*.html` files are merged over the tables of its ancestors,
descendant entries overriding ancestor entries of the same name. -/
def tableOfChain : ViewMap → List (List String × List String) → ViewMap
  | vm, [] => vm
  | vm, (d, fs) :: rest => tableOfChain (addHtmlFiles d fs vm) rest

/-- The full path the name `n` resolves to along a chain: the copy of
`n` in the deepest chain directory that lists `n`, `none` when no
directory on the chain has it. -/
def chainResolve (n : String) : List (List String × List String) → Option (List String)
  | [] => none
  | (d, fs) :: rest =>
      match chainResolve n rest with
      | some r => some r
      | none => if n ∈ fs then some (d ++ [n]) else none

/-- Registry key `k` lies at or below directory `d`. -/
def keyBelow (d k : List String) : Prop := ∃ s, d ++ s = k

/-- The registry a fresh process holds after `SetupViews(r)` against the
tree `t`. -/
def buildRegistry (r : String) (t : FsTree) : Registry :=
  (SetupViews initState r t).1.templates

/-- Fixture: a readable root directory holding one template file. -/
def goodTree : FsTree := .node true true ["base.html"] .nil

/-- Fixture: a root with `base.html` and `content.html`, and a
subdirectory "home" overriding `base.html`. -/
def wTree : FsTree :=
  .node true true ["base.html", "content.html"]
    (.cons "home" (.node true true ["base.html"] .nil) .nil)

/-- Fixture: a tree carrying no template files at all. -/
def plainTree : FsTree :=
  .node true true ["readme.txt"] (.cons "docs" (.node true true ["notes.txt"] .nil) .nil)

/-- Chain of `wTree` from the root down to its "home" subdirectory. -/
def wChain : List (List String × List String) :=
  [(["v"], ["base.html", "content.html"]), (["v", "home"], ["base.html"])]

/-- The merged table the "home" directory of `wTree` compiles. -/
def wTable : ViewMap :=
  [("base.html", ["v", "home", "base.html"]), ("content.html", ["v", "content.html"])]

/-- Fixture: a directory on which `os.Open` fails. -/
def badTree : FsTree := .node false true [] .nil

/-- Fixture: a readable root with one template file and one unreadable
subdirectory named "home". -/
def badSubTree : FsTree :=
  .node true true ["base.html"] (.cons "home" (.node false true ["content.html"] .nil) .nil)

/-- Registry produced by building `goodTree` under root "v". -/
def exReg : Registry := regUpdate emptyReg ["v"] [("base.html", ["v", "base.html"])]

/-- State after a successful build of `goodTree` under root "v". -/
def exState : MvcState := (SetupViews initState "v" goodTree).1

/-- Fixture query string: `?n=42&bad=x&empty=`. -/
def exQuery : Query := fun p =>
  if p = "n" then ["42"] else if p = "bad" then ["x"] else if p = "empty" then [""] else []

/-- C2: `render` looks up `root/controller/view`, falls back to
`root/controller`, then to `root`, and only when all three keys are
absent does it answer with a server error naming the final attempted
path — the root — executing no template. -/
theorem render_cascade_chain (st : MvcState) (c v : String) :
    (∀ t, st.templates [st.viewRootDir, c, v] = some t →
        render st c v = .executed [st.viewRootDir, c, v] t) ∧
    (st.templates [st.viewRootDir, c, v] = none →
      ∀ t, st.templates [st.viewRootDir, c] = some t →
        render st c v = .executed [st.viewRootDir, c] t) ∧
    (st.templates [st.viewRootDir, c, v] = none →
      st.templates [st.viewRootDir, c] = none →
      ∀ t, st.templates [st.viewRootDir] = some t →
        render st c v = .executed [st.viewRootDir] t) ∧
    (st.templates [st.viewRootDir, c, v] = none →
      st.templates [st.viewRootDir, c] = none →
      st.templates [st.viewRootDir] = none →
      render st c v =
        .notFound ("The templates for " ++ st.viewRootDir ++ " were not found.")) := by
  refine ⟨?_, ?_, ?_, ?_⟩ <;> intros <;> simp [render, *]

/-- Witness for `render_cascade_chain`: on the state built from
`goodTree`, an unknown pair cascades to the root set, and on the initial
state the miss message names the (empty) root. -/
theorem render_cascade_chain_witness :
    render exState "c" "a" = .executed ["v"] [("base.html", ["v", "base.html"])] ∧
    render initState "c" "a" = .notFound ("The templates for " ++ "" ++ " were not found.") :=
  ⟨(render_cascade_chain exState "c" "a").2.2.1 rfl rfl _ rfl,
   (render_cascade_chain initState "c" "a").2.2.2 rfl rfl rfl⟩

/-- C5 counterexample: on the state built from `goodTree`, the pair
controller "ghost" / view "phantom" is unregistered (both specific keys
miss), yet `render` executes the root's template set instead of
answering with a server error. -/
theorem unknown_view_executes_fallback :
    exState.templates ["v", "ghost", "phantom"] = none ∧
    exState.templates ["v", "ghost"] = none ∧
    render exState "ghost" "phantom" = .executed ["v"] [("base.html", ["v", "base.html"])] := by
  exact ⟨rfl, rfl, rfl⟩

/-- C5 (amended): a render call for which the specific key and both
fallback keys are all absent executes no template and answers with a
server error. -/
theorem render_no_set_server_error (st : MvcState) (c v : String)
    (h1 : st.templates [st.viewRootDir, c, v] = none)
    (h2 : st.templates [st.viewRootDir, c] = none)
    (h3 : st.templates [st.viewRootDir] = none) :
    render st c v =
      .notFound ("The templates for " ++ st.viewRootDir ++ " were not found.") := by
  simp [render, h1, h2, h3]

/-- Witness for `render_no_set_server_error` on the initial state. -/
theorem render_no_set_server_error_witness :
    render initState "a" "b" = .notFound ("The templates for " ++ "" ++ " were not found.") :=
  render_no_set_server_error initState "a" "b" rfl rfl rfl

/-- C4: once a `SetupViews` call has succeeded, every further call fails
with the already-initialized error, leaves the state untouched, and
leaves render resolution exactly as the first build established it.  (A
successful first build has a non-empty root, since `os.Open("")` fails
on every system, so the sentinel was necessarily set.) -/
theorem setupViews_at_most_once (r1 : String) (fs1 : FsTree) (st1 : MvcState)
    (h1 : SetupViews initState r1 fs1 = (st1, none)) (hr : r1 ≠ "")
    (r2 : String) (fs2 : FsTree) :
    SetupViews st1 r2 fs2 = (st1, some "Views cannot have more than one root directory.") ∧
    ∀ c v, render (SetupViews st1 r2 fs2).1 c v = render st1 c v := by
  have hroot : st1.viewRootDir = r1 := by
    simp only [SetupViews, initState, ne_eq, not_true_eq_false, reduceIte] at h1
    cases hp : parseViewDirectory [r1] [] emptyReg fs1 with
    | ok reg => rw [hp] at h1; cases h1; rfl
    | error e => rw [hp] at h1; cases h1
  have hfail :
      SetupViews st1 r2 fs2 = (st1, some "Views cannot have more than one root directory.") := by
    simp [SetupViews, hroot, hr]
  exact ⟨hfail, fun c v => by rw [hfail]⟩

/-- Witness for `setupViews_at_most_once`: building `goodTree` under "v"
and then calling `SetupViews` again fails and keeps the state. -/
theorem setupViews_at_most_once_witness :
    SetupViews exState "w" goodTree =
      (exState, some "Views cannot have more than one root directory.") :=
  (setupViews_at_most_once "v" goodTree exState rfl (by decide) "w" goodTree).1

/-- C8: the build-once guard only tests that the stored root string is
non-empty, so after a first call with root `""` the guard is unset and a
later call rebuilds and replaces the registry instead of failing. -/
theorem setupViews_empty_root_no_guard (fs1 : FsTree) (st1 : MvcState) (e1 : Option String)
    (h1 : SetupViews initState "" fs1 = (st1, e1)) (r2 : String) (fs2 : FsTree)
    (reg2 : Registry) (hok : parseViewDirectory [r2] [] emptyReg fs2 = .ok reg2) :
    st1.viewRootDir = "" ∧
    SetupViews st1 r2 fs2 = ({ templates := reg2, viewRootDir := r2 }, none) := by
  have hroot : st1.viewRootDir = "" := by
    simp only [SetupViews, initState, ne_eq, not_true_eq_false, reduceIte] at h1
    cases hp : parseViewDirectory [""] [] emptyReg fs1 with
    | ok reg => rw [hp] at h1; cases h1; rfl
    | error e => rw [hp] at h1; cases h1; rfl
  refine ⟨hroot, ?_⟩
  simp [SetupViews, hroot, hok]

/-- Witness for `setupViews_empty_root_no_guard`: a failed first call
with root `""` followed by a successful rebuild under root "v". -/
theorem setupViews_empty_root_no_guard_witness :
    SetupViews (SetupViews initState "" badTree).1 "v" goodTree =
      ({ templates := exReg, viewRootDir := "v" }, none) :=
  (setupViews_empty_root_no_guard badTree (SetupViews initState "" badTree).1
    (SetupViews initState "" badTree).2 rfl "v" goodTree exReg rfl).2

/-- C9 counterexample: the first `SetupViews` call, made with root `""`,
returns a filesystem error, yet the next call does not fail with the
already-initialized error — it succeeds. -/
theorem setupViews_failed_build_not_sticky :
    (SetupViews initState "" badTree).2 = some "open failed" ∧
    (SetupViews (SetupViews initState "" badTree).1 "v" goodTree).2 = none := by
  exact ⟨rfl, rfl⟩

/-- C9 (amended): if the first `SetupViews` call is made with a
*non-empty* root and returns a filesystem error, the sentinel was set
before the failure, so every later call fails with the
already-initialized error even though no usable registry was built. -/
theorem setupViews_error_sets_sentinel (r1 : String) (fs1 : FsTree) (st1 : MvcState)
    (e : String) (h1 : SetupViews initState r1 fs1 = (st1, some e)) (hr : r1 ≠ "")
    (r2 : String) (fs2 : FsTree) :
    st1.viewRootDir = r1 ∧
    SetupViews st1 r2 fs2 = (st1, some "Views cannot have more than one root directory.") := by
  have hroot : st1.viewRootDir = r1 := by
    simp only [SetupViews, initState, ne_eq, not_true_eq_false, reduceIte] at h1
    cases hp : parseViewDirectory [r1] [] emptyReg fs1 with
    | ok reg => rw [hp] at h1; cases h1
    | error e2 => rw [hp] at h1; cases h1; rfl
  exact ⟨hroot, by simp [SetupViews, hroot, hr]⟩

/-- Witness for `setupViews_error_sets_sentinel`: a failed build under
the non-empty root "v" makes the following call fail. -/
theorem setupViews_error_sets_sentinel_witness :
    SetupViews (SetupViews initState "v" badTree).1 "w" goodTree =
      ((SetupViews initState "v" badTree).1,
        some "Views cannot have more than one root directory.") :=
  (setupViews_error_sets_sentinel "v" badTree (SetupViews initState "v" badTree).1
    "open failed" rfl (by decide) "w" goodTree).2

/-- C3 counterexample: `badSubTree` has an unreadable subdirectory
"home", yet the build call reports success — the recursive call's error
is discarded, so a filesystem error in a subdirectory does not make the
build fail. -/
theorem subdir_error_ignored :
    badSubTree =
      .node true true ["base.html"] (.cons "home" (.node false true ["content.html"] .nil) .nil) ∧
    (SetupViews initState "v" badSubTree).2 = none ∧
    (SetupViews initState "v" badSubTree).1.templates ["v", "home"] = none := by
  exact ⟨rfl, rfl, rfl⟩

/-- C3 (amended): the build call fails exactly when opening or listing
the *root* directory fails; filesystem errors inside subdirectories are
silently discarded (the failing subtree contributes no entries). -/
theorem buildFails_iff_rootUnreadable (r : String) (fs : FsTree) :
    (SetupViews initState r fs).2 ≠ none ↔ fs.rootOk = false := by
  have hparse : (∃ e, parseViewDirectory [r] [] emptyReg fs = .error e) ↔ fs.rootOk = false := by
    cases fs with
    | node o rd files subs =>
      cases o with
      | false => simp [parseViewDirectory, FsTree.rootOk]
      | true =>
        cases rd with
        | false => simp [parseViewDirectory, FsTree.rootOk]
        | true =>
          simp [parseViewDirectory, FsTree.rootOk]
          split <;> simp
  simp only [SetupViews, initState, ne_eq, not_true_eq_false, reduceIte]
  cases hp : parseViewDirectory [r] [] emptyReg fs with
  | ok reg => simpa [hp] using hparse
  | error e => simpa [hp] using hparse

/-- C7: `GetString` returns the caller default when the parameter has no
associated value and the first associated value otherwise; `GetInt64`
returns the default when the parameter is absent or its first value does
not parse as a base-10 64-bit integer, and the parsed value otherwise. -/
theorem query_getters_defaults (q : Query) (p : String) (ds : String) (di : Int) :
    (q p = [] → GetString q p ds = ds) ∧
    (∀ v vs, q p = v :: vs → GetString q p ds = v) ∧
    (q p = [] → GetInt64 q p di = di) ∧
    (∀ v vs, q p = v :: vs → parseInt64 v = none → GetInt64 q p di = di) ∧
    (∀ v vs i, q p = v :: vs → parseInt64 v = some i → GetInt64 q p di = i) := by
  refine ⟨?_, ?_, ?_, ?_, ?_⟩
  · intro h; simp [GetString, GetStringSlice, h]
  · intro v vs h; simp [GetString, GetStringSlice, h]
  · intro h; simp [GetInt64, GetString, GetStringSlice, h]
  · intro v vs h hp
    by_cases hv : v = ""
    · simp [GetInt64, GetString, GetStringSlice, h, hv]
    · simp [GetInt64, GetString, GetStringSlice, h, hv, hp]
  · intro v vs i h hp
    have hv : v ≠ "" := by
      rintro rfl
      rw [show parseInt64 "" = none from by decide] at hp
      exact Option.noConfusion hp
    simp [GetInt64, GetString, GetStringSlice, h, hv, hp]

/-- Witness for `query_getters_defaults` on the fixture query
`?n=42&bad=x&empty=`. -/
theorem query_getters_defaults_witness :
    GetString exQuery "missing" "dflt" = "dflt" ∧ GetString exQuery "n" "dflt" = "42" ∧
    GetInt64 exQuery "missing" 7 = 7 ∧ GetInt64 exQuery "bad" 7 = 7 ∧
    GetInt64 exQuery "n" 7 = 42 :=
  ⟨(query_getters_defaults exQuery "missing" "dflt" 7).1 rfl,
   (query_getters_defaults exQuery "n" "dflt" 7).2.1 "42" [] rfl,
   (query_getters_defaults exQuery "missing" "dflt" 7).2.2.1 rfl,
   (query_getters_defaults exQuery "bad" "dflt" 7).2.2.2.1 "x" [] rfl (by decide),
   (query_getters_defaults exQuery "n" "dflt" 7).2.2.2.2 "42" [] 42 rfl (by decide)⟩

/-- C10: a parameter present with the empty string as its value makes
`GetInt64` return the caller default, indistinguishably from an absent
parameter, because `GetInt64` reads the value with `""` as its own
default before parsing. -/
theorem getInt64_empty_value_is_default (q : Query) (p : String) (d : Int)
    (vs : List String) (h : q p = "" :: vs) :
    GetInt64 q p d = d ∧ ∀ q2 : Query, q2 p = [] → GetInt64 q2 p d = GetInt64 q p d := by
  have h1 : GetInt64 q p d = d := by simp [GetInt64, GetString, GetStringSlice, h]
  exact ⟨h1, fun q2 h2 => by rw [h1]; simp [GetInt64, GetString, GetStringSlice, h2]⟩

/-- Witness for `getInt64_empty_value_is_default` on `?empty=`. -/
theorem getInt64_empty_value_is_default_witness :
    GetInt64 exQuery "empty" 7 = 7 :=
  (getInt64_empty_value_is_default exQuery "empty" 7 [] rfl).1

/-- Simultaneous induction over the mutual filesystem types. -/
theorem fsMutualInd {P : FsTree → Prop} {Q : FsForest → Prop}
    (hnode : ∀ o r files subs, Q subs → P (FsTree.node o r files subs))
    (hnil : Q FsForest.nil)
    (hcons : ∀ n t rest, P t → Q rest → Q (FsForest.cons n t rest)) :
    (∀ t, P t) ∧ (∀ f, Q f) :=
  ⟨fun t => @FsTree.rec P Q hnode hnil hcons t,
   fun f => @FsForest.rec P Q hnode hnil hcons f⟩

/-- Every key lies below itself. -/
theorem keyBelow_self (d : List String) : keyBelow d d := ⟨[], List.append_nil d⟩

/-- A key below `d` is at least as long as `d`. -/
theorem keyBelow_length_le {d k : List String} (h : keyBelow d k) : d.length ≤ k.length := by
  obtain ⟨s, hs⟩ := h
  have hl : (d ++ s).length = k.length := by rw [hs]
  simp only [List.length_append] at hl
  omega

/-- No key below a child directory of `d` is `d` itself. -/
theorem not_keyBelow_shorter (d : List String) (a : String) : ¬ keyBelow (d ++ [a]) d := by
  intro h
  have := keyBelow_length_le h
  simp only [List.length_append, List.length_cons, List.length_nil] at this
  omega

/-- Keys below a child of `d` are below `d`. -/
theorem keyBelow_of_extend {d k : List String} {n : String} (h : keyBelow (d ++ [n]) k) :
    keyBelow d k := by
  obtain ⟨s, hs⟩ := h
  exact ⟨[n] ++ s, by rw [← hs, List.append_assoc]⟩

/-- A key of the form `d ++ b :: ys` lies below `d ++ [a]` only when the
components `a` and `b` agree. -/
theorem keyBelow_extend_eq {d : List String} {a b : String} {ys : List String}
    (h : keyBelow (d ++ [a]) (d ++ b :: ys)) : a = b := by
  obtain ⟨s, hs⟩ := h
  rw [List.append_assoc] at hs
  have h2 : a :: s = b :: ys := List.append_cancel_left hs
  simpa using congrArg List.head? h2

/-- A directory path differs from every strictly longer key below it. -/
theorem ne_append_cons (d : List String) (b : String) (ys : List String) :
    d ≠ d ++ b :: ys := by
  intro h
  have hl : d.length = (d ++ b :: ys).length := by rw [← h]
  simp only [List.length_append, List.length_cons] at hl
  omega

/-- Reading an updated Go map: the inserted binding shadows, all other
keys are unchanged. -/
theorem vmLookup_vmInsert (vm : ViewMap) (k : String) (v : List String) (n : String) :
    vmLookup n (vmInsert vm k v) = if k = n then some v else vmLookup n vm := by
  induction vm with
  | nil => simp [vmInsert, vmLookup]
  | cons kv rest ih =>
      obtain ⟨k', v'⟩ := kv
      by_cases hk : k' = k
      · subst hk
        by_cases hn : k' = n <;> simp [vmInsert, vmLookup, hn]
      · by_cases hn : k = n
        · subst hn
          simp [vmInsert, vmLookup, hk, ih]
        · simp [vmInsert, vmLookup, hk, hn, ih]

/-- Reading the table after the file loop of one directory: a name is
bound to this directory's copy when this directory lists a matching
file, and keeps its inherited binding otherwise. -/
theorem vmLookup_addHtmlFiles (d : List String) (fs : List String) (vm : ViewMap) (n : String) :
    vmLookup n (addHtmlFiles d fs vm) =
      if matchHtml n = true ∧ n ∈ fs then some (d ++ [n]) else vmLookup n vm := by
  induction fs generalizing vm with
  | nil => simp [addHtmlFiles]
  | cons f rest ih =>
      simp only [addHtmlFiles]
      rw [ih]
      have hins : vmLookup n (if matchHtml f = true then vmInsert vm f (d ++ [f]) else vm) =
          if matchHtml n = true ∧ n = f then some (d ++ [n]) else vmLookup n vm := by
        by_cases hnf : n = f
        · subst hnf
          by_cases hm : matchHtml n = true
          · simp [hm, vmLookup_vmInsert]
          · simp [hm]
        · have hfn : ¬ (f = n) := fun he => hnf he.symm
          by_cases hmf : matchHtml f = true
          · simp [hmf, vmLookup_vmInsert, hfn, hnf]
          · simp [hmf, hnf]
      rw [hins]
      by_cases hm : matchHtml n = true <;> by_cases h1 : n ∈ rest <;> by_cases h2 : n = f <;>
        simp [hm, h1, h2] <;> intro hf _ <;> simp [hf]

/-- A call on an unopenable or unlistable directory leaves the registry
untouched. -/
theorem parseStep_node_err (dirname : List String) (pv : ViewMap) (reg : Registry)
    (o r : Bool) (files : List String) (subs : FsForest) (h : (o && r) = false) :
    parseStep dirname pv reg (.node o r files subs) = reg := by
  cases o <;> cases r <;> simp_all [parseStep, parseViewDirectory]

/-- A call on a readable directory: recurse into the subdirectories and
register the accumulated table when it is non-empty. -/
theorem parseStep_node (dirname : List String) (pv : ViewMap) (reg : Registry)
    (files : List String) (subs : FsForest) :
    parseStep dirname pv reg (FsTree.node true true files subs) =
      (if (addHtmlFiles dirname files pv).length > 0
       then regUpdate (parseSubdirs dirname (addHtmlFiles dirname files pv) reg subs)
              dirname (addHtmlFiles dirname files pv)
       else parseSubdirs dirname (addHtmlFiles dirname files pv) reg subs) := by
  by_cases hc : (addHtmlFiles dirname files pv).length > 0 <;>
    simp [parseStep, parseViewDirectory, hc]

/-- Unfolding `parseSubdirs` over one subdirectory. -/
theorem parseSubdirs_cons (dirname : List String) (views : ViewMap) (reg : Registry)
    (n : String) (sub : FsTree) (rest : FsForest) :
    parseSubdirs dirname views reg (.cons n sub rest) =
      parseSubdirs dirname views (parseStep (dirname ++ [n]) views reg sub) rest := rfl

/-- Frame property of the walk: a call rooted at `dirname` only writes
registry keys at or below `dirname`; the subdirectory loop only writes
keys below the children it visits. -/
theorem parseStep_frame :
    (∀ t : FsTree, ∀ dirname parent reg k, ¬ keyBelow dirname k →
        parseStep dirname parent reg t k = reg k) ∧
    (∀ f : FsForest, ∀ dirname views reg k,
        (∀ n, n ∈ forestNames f → ¬ keyBelow (dirname ++ [n]) k) →
        parseSubdirs dirname views reg f k = reg k) := by
  refine fsMutualInd ?_ ?_ ?_
  · intro o r files subs ih dirname parent reg k hk
    cases o with
    | false => rw [parseStep_node_err] ; simp
    | true =>
      cases r with
      | false => rw [parseStep_node_err] ; simp
      | true =>
        rw [parseStep_node]
        have h2 : parseSubdirs dirname (addHtmlFiles dirname files parent) reg subs k = reg k :=
          ih dirname _ reg k (fun n _ hb => hk (keyBelow_of_extend hb))
        have hne : ¬ (k = dirname) := fun he => hk (he ▸ keyBelow_self dirname)
        by_cases hc : (addHtmlFiles dirname files parent).length > 0
        · simp [hc, regUpdate, hne, h2]
        · simp [hc, h2]
  · intro dirname views reg k _
    rfl
  · intro n t rest Pt Qrest dirname views reg k hk
    rw [parseSubdirs_cons]
    have h2 := Qrest dirname views (parseStep (dirname ++ [n]) views reg t) k
      (fun m hm => hk m (by simp [forestNames, hm]))
    rw [h2]
    exact Pt (dirname ++ [n]) views reg k (hk n (by simp [forestNames]))

/-- A directory listing no `*.html` file leaves the inherited table
unchanged. -/
theorem addHtmlFiles_no_html (d : List String) (fs : List String) (vm : ViewMap)
    (h : ∀ n, n ∈ fs → matchHtml n = false) : addHtmlFiles d fs vm = vm := by
  induction fs with
  | nil => rfl
  | cons f rest ih =>
      have hf : matchHtml f = false := h f (by simp)
      simp only [addHtmlFiles, hf, Bool.false_eq_true, if_false]
      exact ih (fun n hn => h n (by simp [hn]))

/-- A chain of directories listing no `*.html` files accumulates no
table entries. -/
theorem tableOfChain_no_html (ch : List (List String × List String)) (vm : ViewMap)
    (h : ∀ d fs, (d, fs) ∈ ch → ∀ n, n ∈ fs → matchHtml n = false) :
    tableOfChain vm ch = vm := by
  induction ch generalizing vm with
  | nil => rfl
  | cons dfs rest ih =>
      obtain ⟨d, fs⟩ := dfs
      simp only [tableOfChain]
      rw [addHtmlFiles_no_html d fs vm (h d fs (by simp))]
      exact ih vm (fun d2 f2 hm => h d2 f2 (by simp [hm]))

/-- The table accumulated along a chain resolves a template name to the
copy in the deepest chain directory listing it, and otherwise falls back
to the inherited table. -/
theorem tableOfChain_resolve (ch : List (List String × List String)) (vm : ViewMap)
    (n : String) (hm : matchHtml n = true) :
    vmLookup n (tableOfChain vm ch) =
      (match chainResolve n ch with
       | some r => some r
       | none => vmLookup n vm) := by
  induction ch generalizing vm with
  | nil => simp [tableOfChain, chainResolve]
  | cons dfs rest ih =>
      obtain ⟨d, fs⟩ := dfs
      simp only [tableOfChain, chainResolve]
      rw [ih]
      cases hr : chainResolve n rest with
      | some r => simp [hr]
      | none =>
          simp only [hr]
          rw [vmLookup_addHtmlFiles]
          by_cases hin : n ∈ fs
          · simp [hm, hin]
          · simp [hm, hin]

/-- When the target directory itself lists the name, the chain resolves
the name to the target's own copy. -/
theorem chainResolve_getLast (ch : List (List String × List String)) (d : List String)
    (fs : List String) (n : String) (hl : ch.getLast? = some (d, fs)) (hin : n ∈ fs) :
    chainResolve n ch = some (d ++ [n]) := by
  induction ch with
  | nil => cases hl
  | cons dfs rest ih =>
      cases rest with
      | nil =>
          obtain ⟨d0, f0⟩ := dfs
          have h2 : (d0, f0) = (d, fs) := by simpa using hl
          cases h2
          simp [chainResolve, hin]
      | cons dfs2 rest2 =>
          have hl2 : (dfs2 :: rest2).getLast? = some (d, fs) := by
            simpa [List.getLast?_cons_cons] using hl
          obtain ⟨d0, f0⟩ := dfs
          have hstep : chainResolve n ((d0, f0) :: dfs2 :: rest2) =
              (match chainResolve n (dfs2 :: rest2) with
               | some r => some r
               | none => if n ∈ f0 then some (d0 ++ [n]) else none) := rfl
          rw [hstep, ih hl2]

/-- A tree whose every directory is readable has a readable root. -/
theorem rootOk_of_allOk {t : FsTree} (h : FsTree.allOk t = true) : FsTree.rootOk t = true := by
  cases t with
  | node o r files subs =>
      simp only [FsTree.allOk, Bool.and_eq_true] at h
      simp [FsTree.rootOk, h.1]

/-- On a tree with a readable root, `parseViewDirectory` reports success
and produces the `parseStep` registry. -/
theorem parseViewDirectory_ok_of_rootOk (d : List String) (pv : ViewMap) (reg : Registry)
    (t : FsTree) (h : FsTree.rootOk t = true) :
    parseViewDirectory d pv reg t = .ok (parseStep d pv reg t) := by
  cases t with
  | node o r files subs =>
      simp only [FsTree.rootOk, Bool.and_eq_true] at h
      obtain ⟨ho, hr⟩ := h
      subst ho; subst hr
      by_cases hc : (addHtmlFiles d files pv).length > 0 <;>
        simp [parseViewDirectory, parseStep, hc]

/-- On a fully readable tree, the registry `SetupViews` stores from a
fresh process is the walk's registry. -/
theorem buildRegistry_eq_parseStep (r : String) (t : FsTree)
    (h : FsTree.rootOk t = true) :
    buildRegistry r t = parseStep [r] [] emptyReg t := by
  simp [buildRegistry, SetupViews, initState,
    parseViewDirectory_ok_of_rootOk [r] [] emptyReg t h]

/-- Unfolding `dirChain` along one path component. -/
theorem dirChain_cons (dirname : List String) (o r : Bool) (files : List String)
    (subs : FsForest) (n : String) (rest : List String) :
    dirChain dirname (.node o r files subs) (n :: rest) =
      (match forestFind subs n with
       | none => none
       | some sub =>
           match dirChain (dirname ++ [n]) sub rest with
           | none => none
           | some ch => some ((dirname, files) :: ch)) := rfl

/-- Correctness of the walk at every scanned directory: on a fully
readable, well-formed tree, the registry resulting from a call rooted at
`dirname` maps the path of each reachable directory to the table
accumulated along its chain when that table is non-empty, and leaves the
key as the caller's registry had it when the table is empty. -/
theorem parseStep_lookup :
    (∀ t : FsTree, ∀ dirname parent reg p ch,
        FsTree.allOk t = true → FsTree.wfNames t = true →
        dirChain dirname t p = some ch →
        parseStep dirname parent reg t (dirname ++ p) =
          (if tableOfChain parent ch = [] then reg (dirname ++ p)
           else some (tableOfChain parent ch))) ∧
    (∀ f : FsForest, ∀ dirname views reg n rest sub ch,
        FsForest.allOk f = true → FsForest.wfNames f = true →
        namesNodup (forestNames f) = true →
        forestFind f n = some sub →
        dirChain (dirname ++ [n]) sub rest = some ch →
        parseSubdirs dirname views reg f (dirname ++ n :: rest) =
          (if tableOfChain views ch = [] then reg (dirname ++ n :: rest)
           else some (tableOfChain views ch))) := by
  refine fsMutualInd ?_ ?_ ?_
  · intro o r files subs ih dirname parent reg p ch hok hwf hch
    have ho : (o = true ∧ r = true) ∧ FsForest.allOk subs = true := by
      simpa [FsTree.allOk, Bool.and_eq_true] using hok
    obtain ⟨⟨ho1, ho2⟩, hok2⟩ := ho
    subst ho1; subst ho2
    have hw : namesNodup (forestNames subs) = true ∧ FsForest.wfNames subs = true := by
      simpa [FsTree.wfNames, Bool.and_eq_true] using hwf
    rw [parseStep_node]
    cases p with
    | nil =>
        have hch2 : ch = [(dirname, files)] := by
          have := hch
          simp only [dirChain] at this
          cases this
          rfl
        subst hch2
        simp only [List.append_nil, tableOfChain]
        have hframe :
            parseSubdirs dirname (addHtmlFiles dirname files parent) reg subs dirname =
              reg dirname :=
          parseStep_frame.2 subs dirname _ reg dirname
            (fun m _ hb => not_keyBelow_shorter dirname m hb)
        by_cases hc : (addHtmlFiles dirname files parent).length > 0
        · have hne : addHtmlFiles dirname files parent ≠ [] := by
            intro he; rw [he] at hc; simp at hc
          simp [hc, regUpdate, hne]
        · have he : addHtmlFiles dirname files parent = [] := by
            cases hq : addHtmlFiles dirname files parent with
            | nil => rfl
            | cons a b => rw [hq] at hc; simp at hc
          rw [if_neg hc, hframe, he]
          simp
    | cons n rest =>
        have hch' : ∃ sub ch', forestFind subs n = some sub ∧
            dirChain (dirname ++ [n]) sub rest = some ch' ∧
            ch = (dirname, files) :: ch' := by
          rw [dirChain_cons] at hch
          cases hf : forestFind subs n with
          | none =>
              rw [hf] at hch
              exact Option.noConfusion hch
          | some sub2 =>
              rw [hf] at hch
              have hch2 : (match dirChain (dirname ++ [n]) sub2 rest with
                  | none => none
                  | some ch2 => some ((dirname, files) :: ch2)) = some ch := hch
              cases hd : dirChain (dirname ++ [n]) sub2 rest with
              | none =>
                  rw [hd] at hch2
                  exact Option.noConfusion hch2
              | some ch2 =>
                  rw [hd] at hch2
                  have h4 : ((dirname, files) :: ch2) = ch := Option.some.inj hch2
                  exact ⟨sub2, ch2, rfl, hd, h4.symm⟩
        obtain ⟨sub, ch', hf, hd, hcc⟩ := hch'
        subst hcc
        have hQ := ih dirname (addHtmlFiles dirname files parent) reg n rest sub ch'
          hok2 hw.2 hw.1 hf hd
        have hne : ¬ (dirname ++ n :: rest = dirname) :=
          fun he => ne_append_cons dirname n rest he.symm
        by_cases hc : (addHtmlFiles dirname files parent).length > 0
        · rw [if_pos hc]
          simp only [regUpdate, tableOfChain]
          rw [if_neg hne, hQ]
        · rw [if_neg hc, hQ]
          simp only [tableOfChain]
  · intro dirname views reg n rest sub ch _ _ _ hf _
    simp [forestFind] at hf
  · intro m s rest' Ps Qrest dirname views reg n rest sub ch hok hwf hnod hf hd
    have hok' : FsTree.allOk s = true ∧ FsForest.allOk rest' = true := by
      simpa [FsForest.allOk, Bool.and_eq_true] using hok
    have hwf' : FsTree.wfNames s = true ∧ FsForest.wfNames rest' = true := by
      simpa [FsForest.wfNames, Bool.and_eq_true] using hwf
    have hnod' : m ∉ forestNames rest' ∧ namesNodup (forestNames rest') = true := by
      simpa [forestNames, namesNodup, Bool.and_eq_true] using hnod
    rw [parseSubdirs_cons]
    by_cases hmn : m = n
    · subst hmn
      have hsub : s = sub := by simpa [forestFind] using hf
      subst hsub
      have hkey : dirname ++ m :: rest = (dirname ++ [m]) ++ rest := by simp
      have hframe := parseStep_frame.2 rest' dirname views
        (parseStep (dirname ++ [m]) views reg s) (dirname ++ m :: rest)
        (fun m2 hm2 hb => by
          have : m2 = m := keyBelow_extend_eq hb
          exact hnod'.1 (this ▸ hm2))
      rw [hframe, hkey]
      exact Ps (dirname ++ [m]) views reg rest ch hok'.1 hwf'.1 hd
    · have hf2 : forestFind rest' n = some sub := by
        simpa [forestFind, hmn] using hf
      have hQ := Qrest dirname views (parseStep (dirname ++ [m]) views reg s) n rest sub ch
        hok'.2 hwf'.2 hnod'.2 hf2 hd
      rw [hQ]
      have hframe := parseStep_frame.1 s (dirname ++ [m]) views reg (dirname ++ n :: rest)
        (fun hb => hmn (keyBelow_extend_eq hb))
      rw [hframe]

/-- C1: for every directory `D` scanned by the builder (readable,
well-formed tree; `D` reached along the chain `ch`), the set stored for
`D` is the chain's merged table; that table resolves every template name
to the copy in the deepest chain directory listing it — so names listed
by `D` itself resolve to `D`'s copy, overriding every ancestor, and
names not listed by `D` resolve to the nearest ancestor's copy. -/
theorem templateSet_overrides (r : String) (t : FsTree) (p : List String)
    (ch : List (List String × List String))
    (hok : FsTree.allOk t = true) (hwf : FsTree.wfNames t = true)
    (hch : dirChain [r] t p = some ch) :
    (tableOfChain [] ch ≠ [] → buildRegistry r t (r :: p) = some (tableOfChain [] ch)) ∧
    (∀ n, matchHtml n = true → vmLookup n (tableOfChain [] ch) = chainResolve n ch) ∧
    (∀ d fs, ch.getLast? = some (d, fs) → ∀ n, matchHtml n = true → n ∈ fs →
        vmLookup n (tableOfChain [] ch) = some (d ++ [n])) := by
  refine ⟨?_, ?_, ?_⟩
  · intro hne
    rw [buildRegistry_eq_parseStep r t (rootOk_of_allOk hok)]
    have hl := parseStep_lookup.1 t [r] [] emptyReg p ch hok hwf hch
    have hkey : ([r] : List String) ++ p = r :: p := by simp
    rw [hkey] at hl
    rw [hl, if_neg hne]
  · intro n hm
    rw [tableOfChain_resolve ch [] n hm]
    cases hr : chainResolve n ch <;> simp [vmLookup]
  · intro d fs hl n hm hin
    rw [tableOfChain_resolve ch [] n hm, chainResolve_getLast ch d fs n hl hin]

/-- Witness for `templateSet_overrides` on `wTree`: the "home" directory
overrides `base.html`, inherits `content.html`, and the registry stores
exactly that merged table. -/
theorem templateSet_overrides_witness :
    buildRegistry "v" wTree ["v", "home"] = some wTable ∧
    vmLookup "base.html" wTable = some ["v", "home", "base.html"] ∧
    vmLookup "content.html" wTable = some ["v", "content.html"] := by
  have h := templateSet_overrides "v" wTree ["home"] wChain (by decide) (by decide) (by decide)
  refine ⟨?_, ?_, ?_⟩
  · exact (h.1 (by decide)).trans (by decide)
  · exact h.2.2 ["v", "home"] ["base.html"] (by decide) "base.html" (by decide) (by decide)
  · exact (h.2.1 "content.html" (by decide)).trans (by decide)

/-- C6: a directory with no template file anywhere on its root-to-target
chain gets no registry entry: the built registry maps its path to
nothing. -/
theorem no_entry_for_templateless_path (r : String) (t : FsTree) (p : List String)
    (ch : List (List String × List String))
    (hok : FsTree.allOk t = true) (hwf : FsTree.wfNames t = true)
    (hch : dirChain [r] t p = some ch)
    (hempty : ∀ dfs ∈ ch, ∀ n ∈ dfs.2, matchHtml n = false) :
    buildRegistry r t (r :: p) = none := by
  have htbl : tableOfChain [] ch = [] :=
    tableOfChain_no_html ch [] (fun d fs hm n hn => hempty (d, fs) hm n hn)
  rw [buildRegistry_eq_parseStep r t (rootOk_of_allOk hok)]
  have hl := parseStep_lookup.1 t [r] [] emptyReg p ch hok hwf hch
  have hkey : ([r] : List String) ++ p = r :: p := by simp
  rw [hkey] at hl
  rw [hl, if_pos htbl]
  rfl

/-- Witness for `no_entry_for_templateless_path` on `plainTree`: the
"docs" directory sees no template file and gets no entry. -/
theorem no_entry_for_templateless_path_witness :
    buildRegistry "v" plainTree ["v", "docs"] = none :=
  no_entry_for_templateless_path "v" plainTree ["docs"]
    [(["v"], ["readme.txt"]), (["v", "docs"], ["notes.txt"])]
    (by decide) (by decide) (by decide) (by decide)
